import Mathlib

/-!
Shallow embedding of the Prometheus sink of kubernetes-event-exporter
(pkg/sinks/prometheus.go) and proofs about it.

Strings are modelled by Lean `String` (a list of characters); Go maps are
modelled by association lists with lookup-first semantics (Go maps have
unique keys); the Prometheus GaugeVec is modelled as a finite map from a
label set to the stored numeric value (an `AList`), with `With(...).Set`
as insert and `Delete` as erase.  The `float64(count)` conversion from
`int32` is exact, so the stored value is modelled as `Int`.
-/

/-- `defaultMetricLabels` from prometheus.go: the three mandatory label keys. -/
def defaultMetricLabels : List String := ["name", "namespace", "reason"]

/-- A character matched by `invalidCharsRegex`, i.e. outside `[a-zA-Z0-9_]`. -/
def isInvalidChar (c : Char) : Bool :=
  !(('a' ≤ c && c ≤ 'z') || ('A' ≤ c && c ≤ 'Z') || ('0' ≤ c && c ≤ '9') || c = '_')

/-- `invalidCharsRegex.ReplaceAllString(label, "_")`: every character outside
`[a-zA-Z0-9_]` is replaced by an underscore. -/
def replaceInvalidChars (s : List Char) : List Char :=
  s.map (fun c => if isInvalidChar c then '_' else c)

/-- First capture class of `camelCaseRegex`: `[a-z0-9]`. -/
def isLowerDigitChar (c : Char) : Bool :=
  ('a' ≤ c && c ≤ 'z') || ('0' ≤ c && c ≤ '9')

/-- Second capture class of `camelCaseRegex`: `[A-Z]`. -/
def isUpperChar (c : Char) : Bool :=
  'A' ≤ c && c ≤ 'Z'

/-- `camelCaseRegex.ReplaceAllString(label, "${1}_{2}")`, scanning leftmost,
non-overlapping.  In a Go replacement template a group reference is written
`$name` or `${name}`; the template here has `${1}` (group 1) followed by the
LITERAL text `_{2}` — there is no `$` in front of `{2}` — so a match
`c1 c2` is rewritten to `c1` `_` `{` `2` `}` and the captured upper-case
character `c2` is dropped. -/
def camelCaseReplace : List Char → List Char
  | [] => []
  | [c] => [c]
  | c1 :: c2 :: rest =>
    if isLowerDigitChar c1 && isUpperChar c2 then
      c1 :: '_' :: '\x7b' :: '2' :: '\x7d' :: camelCaseReplace rest
    else
      c1 :: camelCaseReplace (c2 :: rest)

/-- `strings.ToLower` restricted to ASCII, which is all that can reach it
here (after `replaceInvalidChars` every character is in `[a-zA-Z0-9_]`, and
`camelCaseReplace` only adds `_`, braces and a digit). -/
def toLowerChars (s : List Char) : List Char :=
  s.map Char.toLower

/-- `sanitizeLabelName` from prometheus.go: replace invalid characters,
apply the camel-case replacement, lower-case the result. -/
def sanitizeLabelName (label : String) : String :=
  ⟨toLowerChars (camelCaseReplace (replaceInvalidChars label.data))⟩

/-- `getMetricLabelName` from prometheus.go: a mandatory key maps to itself,
any other key is sanitized and prefixed. -/
def getMetricLabelName (label : String) : String :=
  if defaultMetricLabels.contains label then label
  else "label_" ++ sanitizeLabelName label

example : sanitizeLabelName "a.b-c" = "a_b_c" := by decide
example : sanitizeLabelName "fooBar" = "foo_\x7b2\x7dar" := by decide
example : getMetricLabelName "reason" = "reason" := by decide
example : getMetricLabelName "test_label" = "label_test_label" := by decide

/-- Go map lookup (`m[k]`, comma-ok form): association-list lookup.
Go maps have unique keys, so first-match semantics is faithful. -/
def goLookup {β : Type} : List (String × β) → String → Option β
  | [], _ => none
  | (k', v) :: rest, k => if k' = k then some v else goLookup rest k

/-- Go map read `m[k]` on a `map[string]string`: the zero value `""` when
the key is absent. -/
def mapGetD (m : List (String × String)) (k : String) : String :=
  (goLookup m k).getD ""

/-- Go map write `m[k] = v`: overwrite if the key is present, else add. -/
def mapInsert : List (String × String) → String → String → List (String × String)
  | [], k, v => [(k, v)]
  | (k', v') :: rest, k, v =>
    if k' = k then (k, v) :: rest else (k', v') :: mapInsert rest k v

/-- `prometheus.Labels`: a label-key → label-value map, built by
`getMetricLabels` with a fixed insertion order, so association-list equality
coincides with Go map equality for the label sets the sink builds. -/
abbrev Labels : Type := List (String × String)

/-- `kube.EnhancedObjectReference` (the fields used by the sink). -/
structure EnhancedObjectReference where
  kind : String
  name : String
  namespace_ : String
  labels : List (String × String)

/-- `kube.EnhancedEvent` (the fields used by the sink). `count : Int` models
the `int32` count; `float64(count)` is exact on `int32`, so the gauge value
is identified with the count. -/
structure EnhancedEvent where
  involvedObject : EnhancedObjectReference
  reason : String
  count : Int

/-- `PrometheusConfig` from prometheus.go.  `metricsNamePre` models the
field `EventsMetricsNamePrefix`; the two filters are `map[string][]string`. -/
structure PrometheusConfig where
  metricsNamePre : String
  reasonFilter : List (String × List String)
  labelFilter : List (String × List String)

/-- The loop body of `getMetricLabels`: walk the kind's metric label list,
skipping the mandatory keys, and store `obj.Labels[label]` (zero value `""`
when absent) under the sanitized/prefixed key. -/
def addExtraLabels (obj : EnhancedObjectReference) : Labels → List String → Labels
  | acc, [] => acc
  | acc, label :: rest =>
    addExtraLabels obj
      (if defaultMetricLabels.contains label then acc
       else mapInsert acc (getMetricLabelName label) (mapGetD obj.labels label))
      rest

/-- `getMetricLabels` from prometheus.go: the mandatory entries
`name`/`namespace`/`reason`, then one entry per non-mandatory configured
label key. -/
def getMetricLabels (metricLabels : List String) (obj : EnhancedObjectReference)
    (reason : String) : Labels :=
  addExtraLabels obj
    [("name", obj.name), ("namespace", obj.namespace_), ("reason", reason)]
    metricLabels

/-- One GaugeVec mutation: `With(labels).Set(value)` or `Delete(labels)`. -/
inductive GVOp : Type
  | set (labels : Labels) (value : Int)
  | del (labels : Labels)
deriving DecidableEq

/-- The label set an operation addresses. -/
def GVOp.target : GVOp → Labels
  | .set l _ => l
  | .del l => l

/-- The state of one GaugeVec: a finite map from label sets to values. -/
def GVState : Type := Finmap (fun _ : Labels => Int)

instance : EmptyCollection GVState := ⟨(∅ : Finmap (fun _ : Labels => Int))⟩

/-- Present-series lookup in a GaugeVec. -/
def GVState.get (σ : GVState) (l : Labels) : Option Int :=
  Finmap.lookup l σ

/-- Apply one mutation: `set` is create-or-update, `del` removes the series
if present and is a no-op otherwise. -/
def GVState.apply (σ : GVState) : GVOp → GVState
  | .set l v => Finmap.insert l v σ
  | .del l => Finmap.erase l σ

/-- Apply a list of mutations in order. -/
def GVState.applyOps (σ : GVState) : List GVOp → GVState
  | [] => σ
  | op :: rest => GVState.applyOps (σ.apply op) rest

/-- `PrometheusSink` from prometheus.go (the GaugeVecs themselves are the
mutable `GVState`, threaded separately). -/
structure PrometheusSink where
  cfg : PrometheusConfig
  kinds : List String
  metricLabelsByKind : List (String × List String)

/-- The configured reason list of a kind (`o.cfg.ReasonFilter[kind]`,
`nil` i.e. `[]` when absent). -/
def reasonsFor (o : PrometheusSink) (kind : String) : List String :=
  (goLookup o.cfg.reasonFilter kind).getD []

/-- The metric label list of a kind (`o.metricLabelsByKind[kind]`). -/
def metricLabelsFor (o : PrometheusSink) (kind : String) : List String :=
  (goLookup o.metricLabelsByKind kind).getD []

/-- The GaugeVec operation `Send` issues for one configured reason:
`SetEventCount` when it equals the event's reason, else `DeleteEventCount`. -/
def opForReason (o : PrometheusSink) (ev : EnhancedEvent) (reason : String) : GVOp :=
  if ev.reason = reason then
    GVOp.set (getMetricLabels (metricLabelsFor o ev.involvedObject.kind)
      ev.involvedObject reason) ev.count
  else
    GVOp.del (getMetricLabels (metricLabelsFor o ev.involvedObject.kind)
      ev.involvedObject reason)

/-- The trace of GaugeVec operations `PrometheusSink.Send` performs on the
event's kind's GaugeVec: nothing when the kind is not configured, else one
operation per configured reason, in configuration order. -/
def sendOps (o : PrometheusSink) (ev : EnhancedEvent) : List GVOp :=
  if o.kinds.contains ev.involvedObject.kind then
    (reasonsFor o ev.involvedObject.kind).map (opForReason o ev)
  else []

/-- The effect of `PrometheusSink.Send` on the event's kind's GaugeVec. -/
def processEvent (o : PrometheusSink) (ev : EnhancedEvent) (σ : GVState) : GVState :=
  σ.applyOps (sendOps o ev)

/-- `PrometheusSink.Send` with its `error` result: the body unconditionally
ends in `return nil`. -/
def send (o : PrometheusSink) (ev : EnhancedEvent) (σ : GVState) :
    Except String GVState :=
  Except.ok (processEvent o ev σ)

/-- The per-kind label list built in `NewPrometheusSink`: start from
`defaultMetricLabels`, then append each configured extra key that is not
already one of the mandatory keys (the `slices.Contains` guard). -/
def buildKindLabels (extras : List String) : List String :=
  defaultMetricLabels ++ extras.filter (fun l => !defaultMetricLabels.contains l)

/-- The metric name derived in `NewPrometheusSink`. -/
def metricNameFor (config : PrometheusConfig) (kind : String) : String :=
  config.metricsNamePre ++ kind.toLower ++ "_event_count"

/-- `NewPrometheusSink` from prometheus.go.  The Go function mutates the
caller's `*PrometheusConfig` in place (defaulting the empty metrics-name
prefix field to `"event_exporter_"`) and stores that same pointer in the
sink; the mutation is made explicit by returning the updated configuration
alongside the sink. -/
def newPrometheusSink (config : PrometheusConfig) : PrometheusSink × PrometheusConfig :=
  let config' :=
    if config.metricsNamePre = "" then
      { config with metricsNamePre := "event_exporter_" }
    else config
  let kinds := config'.reasonFilter.map Prod.fst
  let mlbk := config'.reasonFilter.map
    (fun p => (p.1, buildKindLabels ((goLookup config'.labelFilter p.1).getD [])))
  ({ cfg := config', kinds := kinds, metricLabelsByKind := mlbk }, config')

/-- The last key of `ml` that the `getMetricLabels` loop writes to metric
label name `x` (skipping mandatory keys), if any: a later write to the same
Go map key overwrites an earlier one. -/
def lastExtraFor : List String → String → Option String
  | [], _ => none
  | k :: rest, x =>
    match lastExtraFor rest x with
    | some k' => some k'
    | none =>
      if defaultMetricLabels.contains k = false ∧ getMetricLabelName k = x then
        some k
      else none

/-- The last operation of a trace addressing label set `l`, if any. -/
def lastOpOn : List GVOp → Labels → Option GVOp
  | [], _ => none
  | op :: rest, l =>
    match lastOpOn rest l with
    | some o => some o
    | none => if op.target = l then some op else none

/-- The lookup result an operation leaves at its own target. -/
def opResult : GVOp → Option Int
  | .set _ v => some v
  | .del _ => none

/-! ## Concrete fixtures (used by counterexamples and witnesses) -/

/-- An object mirroring the end-to-end scenario of the test file:
kind `Pod`, name `p1`, namespace `ns`, one label `test_label = v1`. -/
def testObj : EnhancedObjectReference :=
  { kind := "Pod", name := "p1", namespace_ := "ns", labels := [("test_label", "v1")] }

/-- An object whose two label keys `a.b` and `a_b` sanitize to the same
metric label name `label_a_b` but carry different values. -/
def collObj : EnhancedObjectReference :=
  { kind := "Pod", name := "p1", namespace_ := "ns",
    labels := [("a.b", "x"), ("a_b", "y")] }

/-- A sink configured with kind `Pod` and reasons `A` and `B`
(the invariant-test scenario of the spec). -/
def sinkW : PrometheusSink :=
  { cfg := { metricsNamePre := "test_", reasonFilter := [("Pod", ["A", "B"])],
             labelFilter := [] },
    kinds := ["Pod"],
    metricLabelsByKind := [("Pod", ["name", "namespace", "reason"])] }

/-- An object of the configured kind `Pod`. -/
def objW : EnhancedObjectReference :=
  { kind := "Pod", name := "p1", namespace_ := "ns", labels := [] }

/-- An event with reason `A` for `objW`. -/
def evA : EnhancedEvent := { involvedObject := objW, reason := "A", count := 1 }

/-- A later event with reason `B` for the same object, with a new count. -/
def evB : EnhancedEvent := { involvedObject := objW, reason := "B", count := 5 }

/-- An event whose kind `ReplicaSet` is not configured in `sinkW`. -/
def evX : EnhancedEvent :=
  { involvedObject :=
      { kind := "ReplicaSet", name := "r1", namespace_ := "ns", labels := [] },
    reason := "SuccessfulCreate", count := 1 }

/-- A configuration whose `Pod` extras contain a mandatory key (`name`)
next to an ordinary key. -/
def cfgW : PrometheusConfig :=
  { metricsNamePre := "", reasonFilter := [("Pod", ["Starting"])],
    labelFilter := [("Pod", ["test_label", "name"])] }

/-- A configuration whose `Pod` extra list repeats the same key. -/
def cfgDup : PrometheusConfig :=
  { metricsNamePre := "", reasonFilter := [("Pod", ["Starting"])],
    labelFilter := [("Pod", ["extra", "extra"])] }

/-! ## Helper lemmas -/

theorem goLookup_mapInsert (m : List (String × String)) (k v x : String) :
    goLookup (mapInsert m k v) x = if k = x then some v else goLookup m x := by
  induction m with
  | nil => simp [mapInsert, goLookup]
  | cons p rest ih =>
    obtain ⟨k', v'⟩ := p
    by_cases h : k' = k
    · subst h
      by_cases hx : k' = x <;> simp [mapInsert, goLookup, hx]
    · simp only [mapInsert, if_neg h, goLookup]
      by_cases hx : k' = x
      · have hkx : ¬ k = x := fun hh => h (hx ▸ hh ▸ rfl)
        simp [hx, hkx]
      · simp [hx, ih]

theorem addExtraLabels_lookup (obj : EnhancedObjectReference) (ml : List String) :
    ∀ (acc : Labels) (x : String),
    goLookup (addExtraLabels obj acc ml) x =
      match lastExtraFor ml x with
      | some k => some (mapGetD obj.labels k)
      | none => goLookup acc x := by
  induction ml with
  | nil => intro acc x; rfl
  | cons k rest ih =>
    intro acc x
    simp only [addExtraLabels, lastExtraFor]
    rw [ih]
    cases hrest : lastExtraFor rest x with
    | some k' => simp
    | none =>
      simp only []
      by_cases hc : defaultMetricLabels.contains k
      · rw [if_pos hc, if_neg]
        rintro ⟨hfc, -⟩
        exact Bool.noConfusion (hfc.symm.trans hc)
      · have hc' : defaultMetricLabels.contains k = false := by
          simpa using hc
        rw [if_neg hc]
        by_cases hx : getMetricLabelName k = x
        · rw [if_pos ⟨hc', hx⟩, goLookup_mapInsert, if_pos hx]
        · rw [if_neg (fun hh => hx hh.2), goLookup_mapInsert, if_neg hx]

theorem labelPrefixed_ne_mandatory (s d : String) (hd : d ∈ defaultMetricLabels) :
    "label_" ++ s ≠ d := by
  have hl : ("label_" ++ s).data.head? = some 'l' := rfl
  intro h
  rw [h] at hl
  fin_cases hd <;> exact absurd hl (by decide)

theorem getMetricLabelName_not_mandatory (k : String)
    (hc : defaultMetricLabels.contains k = false) (d : String)
    (hd : d ∈ defaultMetricLabels) : getMetricLabelName k ≠ d := by
  unfold getMetricLabelName
  rw [if_neg (fun hh => Bool.noConfusion (hc.symm.trans hh))]
  exact labelPrefixed_ne_mandatory _ d hd

theorem lastExtraFor_mandatory (ml : List String) (d : String)
    (hd : d ∈ defaultMetricLabels) : lastExtraFor ml d = none := by
  induction ml with
  | nil => rfl
  | cons k rest ih =>
    simp only [lastExtraFor, ih]
    rw [if_neg]
    rintro ⟨hc, hx⟩
    exact getMetricLabelName_not_mandatory k hc d hd hx

theorem getMetricLabels_lookup (ml : List String) (obj : EnhancedObjectReference)
    (r x : String) :
    goLookup (getMetricLabels ml obj r) x =
      match lastExtraFor ml x with
      | some k => some (mapGetD obj.labels k)
      | none =>
        goLookup [("name", obj.name), ("namespace", obj.namespace_), ("reason", r)] x := by
  unfold getMetricLabels
  rw [addExtraLabels_lookup]

theorem getMetricLabels_name (ml : List String) (obj : EnhancedObjectReference)
    (r : String) : goLookup (getMetricLabels ml obj r) "name" = some obj.name := by
  rw [getMetricLabels_lookup, lastExtraFor_mandatory _ _ (by decide)]
  simp [goLookup]

theorem getMetricLabels_namespace (ml : List String) (obj : EnhancedObjectReference)
    (r : String) : goLookup (getMetricLabels ml obj r) "namespace" = some obj.namespace_ := by
  rw [getMetricLabels_lookup, lastExtraFor_mandatory _ _ (by decide)]
  simp [goLookup]

theorem getMetricLabels_reason (ml : List String) (obj : EnhancedObjectReference)
    (r : String) : goLookup (getMetricLabels ml obj r) "reason" = some r := by
  rw [getMetricLabels_lookup, lastExtraFor_mandatory _ _ (by decide)]
  simp [goLookup]

theorem getMetricLabels_inj_reason (ml : List String) (obj : EnhancedObjectReference)
    (r r' : String) (h : getMetricLabels ml obj r = getMetricLabels ml obj r') :
    r = r' := by
  have h2 := congrArg (fun L => goLookup L "reason") h
  simp only [getMetricLabels_reason] at h2
  exact Option.some.inj h2

theorem applyOps_get (ops : List GVOp) : ∀ (σ : GVState) (l : Labels),
    (σ.applyOps ops).get l =
      match lastOpOn ops l with
      | some op => opResult op
      | none => σ.get l := by
  induction ops with
  | nil => intro σ l; rfl
  | cons op rest ih =>
    intro σ l
    simp only [GVState.applyOps, lastOpOn]
    rw [ih]
    cases hrest : lastOpOn rest l with
    | some o => simp
    | none =>
      simp only []
      cases op with
      | set l' v =>
        simp only [GVState.apply, GVState.get, GVOp.target]
        by_cases hl : l' = l
        · subst hl
          rw [if_pos rfl]
          simp [opResult, Finmap.lookup_insert]
        · rw [if_neg hl]
          exact Finmap.lookup_insert_of_ne σ (fun hh => hl hh.symm)
      | del l' =>
        simp only [GVState.apply, GVState.get, GVOp.target]
        by_cases hl : l' = l
        · subst hl
          rw [if_pos rfl]
          simp [opResult, Finmap.lookup_erase]
        · rw [if_neg hl]
          exact Finmap.lookup_erase_ne (fun hh => hl hh.symm)

theorem opForReason_target (o : PrometheusSink) (ev : EnhancedEvent) (r : String) :
    (opForReason o ev r).target =
      getMetricLabels (metricLabelsFor o ev.involvedObject.kind) ev.involvedObject r := by
  unfold opForReason
  split <;> rfl

theorem lastOpOn_map_none (o : PrometheusSink) (ev : EnhancedEvent)
    (rs : List String) (l : Labels)
    (h : ∀ r' ∈ rs, (opForReason o ev r').target ≠ l) :
    lastOpOn (rs.map (opForReason o ev)) l = none := by
  induction rs with
  | nil => rfl
  | cons r0 rest ih =>
    simp only [List.map_cons, lastOpOn,
      ih (fun r' hr' => h r' (List.mem_cons_of_mem _ hr'))]
    rw [if_neg (h r0 (List.mem_cons_self _ _))]

theorem lastOpOn_map_opForReason (o : PrometheusSink) (ev : EnhancedEvent)
    (rs : List String) (r : String) (hr : r ∈ rs) :
    lastOpOn (rs.map (opForReason o ev))
      (getMetricLabels (metricLabelsFor o ev.involvedObject.kind) ev.involvedObject r)
      = some (opForReason o ev r) := by
  induction rs with
  | nil => cases hr
  | cons r0 rest ih =>
    by_cases hmem : r ∈ rest
    · simp only [List.map_cons, lastOpOn, ih hmem]
    · have hr0 : r = r0 := by
        rcases List.mem_cons.mp hr with h | h
        · exact h
        · exact absurd h hmem
      subst hr0
      have hnone : lastOpOn (rest.map (opForReason o ev))
          (getMetricLabels (metricLabelsFor o ev.involvedObject.kind) ev.involvedObject r)
          = none := by
        apply lastOpOn_map_none
        intro r' hr'
        rw [opForReason_target]
        intro heq
        exact hmem (getMetricLabels_inj_reason _ _ _ _ heq ▸ hr')
      simp only [List.map_cons, lastOpOn, hnone]
      rw [if_pos (opForReason_target o ev r)]

theorem lastExtraFor_none (ml : List String) (x : String)
    (h : ∀ k' ∈ ml, defaultMetricLabels.contains k' = false → getMetricLabelName k' ≠ x) :
    lastExtraFor ml x = none := by
  induction ml with
  | nil => rfl
  | cons k rest ih =>
    simp only [lastExtraFor, ih (fun k' hk' => h k' (List.mem_cons_of_mem _ hk'))]
    rw [if_neg]
    rintro ⟨hc, hx⟩
    exact h k (List.mem_cons_self _ _) hc hx

theorem lastExtraFor_self (ml : List String) (k : String) (hk : k ∈ ml)
    (hc : defaultMetricLabels.contains k = false)
    (hinj : ∀ k' ∈ ml, defaultMetricLabels.contains k' = false →
      getMetricLabelName k' = getMetricLabelName k → k' = k) :
    lastExtraFor ml (getMetricLabelName k) = some k := by
  induction ml with
  | nil => cases hk
  | cons k0 rest ih =>
    by_cases hmem : k ∈ rest
    · have := ih hmem (fun k' hk' hc' he =>
        hinj k' (List.mem_cons_of_mem _ hk') hc' he)
      simp only [lastExtraFor, this]
    · have hk0 : k = k0 := by
        rcases List.mem_cons.mp hk with h | h
        · exact h
        · exact absurd h hmem
      subst hk0
      have hnone : lastExtraFor rest (getMetricLabelName k) = none := by
        apply lastExtraFor_none
        intro k' hk' hc' he
        exact hmem (hinj k' (List.mem_cons_of_mem _ hk') hc' he ▸ hk')
      have hcm : k ∉ defaultMetricLabels := by simpa using hc
      simp [lastExtraFor, hnone, hcm]

theorem goLookup_map_fst {α β : Type} (l : List (String × α)) (f : String → β)
    (k : String) (hk : k ∈ l.map Prod.fst) :
    goLookup (l.map (fun p => (p.1, f p.1))) k = some (f k) := by
  induction l with
  | nil => cases hk
  | cons p rest ih =>
    simp only [List.map_cons, goLookup]
    by_cases h : p.1 = k
    · rw [if_pos h, h]
    · rw [if_neg h]
      apply ih
      rcases List.mem_cons.mp hk with hh | hh
      · exact absurd hh.symm h
      · exact hh

theorem newSink_snd (cfg : PrometheusConfig) :
    (newPrometheusSink cfg).2 =
      if cfg.metricsNamePre = "" then
        { cfg with metricsNamePre := "event_exporter_" }
      else cfg := by
  unfold newPrometheusSink
  split <;> rfl

theorem newSink_labelFilter (cfg : PrometheusConfig) :
    (newPrometheusSink cfg).2.labelFilter = cfg.labelFilter := by
  rw [newSink_snd]
  split <;> rfl

theorem newSink_metricLabels (cfg : PrometheusConfig) (kind : String)
    (hk : kind ∈ (newPrometheusSink cfg).1.kinds) :
    goLookup (newPrometheusSink cfg).1.metricLabelsByKind kind =
      some (buildKindLabels ((goLookup cfg.labelFilter kind).getD [])) := by
  simp only [newPrometheusSink] at hk ⊢
  by_cases hp : cfg.metricsNamePre = ""
  · simp only [if_pos hp] at hk ⊢
    exact goLookup_map_fst _
      (fun k => buildKindLabels ((goLookup cfg.labelFilter k).getD [])) kind hk
  · simp only [if_neg hp] at hk ⊢
    exact goLookup_map_fst _
      (fun k => buildKindLabels ((goLookup cfg.labelFilter k).getD [])) kind hk

theorem buildKindLabels_nodup (extras : List String) (hnd : extras.Nodup) :
    (buildKindLabels extras).Nodup := by
  unfold buildKindLabels
  rw [List.nodup_append]
  refine ⟨by decide, hnd.filter _, ?_⟩
  intro x hx hx2
  have h2 := (List.mem_filter.mp hx2).2
  simp only [Bool.not_eq_true'] at h2
  fin_cases hx <;> exact absurd h2 (by decide)

theorem buildKindLabels_mem (extras : List String) (k : String) :
    k ∈ buildKindLabels extras ↔ (k ∈ defaultMetricLabels ∨ k ∈ extras) := by
  unfold buildKindLabels
  simp only [List.mem_append, List.mem_filter, Bool.not_eq_true']
  constructor
  · rintro (h | ⟨h, -⟩)
    · exact Or.inl h
    · exact Or.inr h
  · rintro (h | h)
    · exact Or.inl h
    · by_cases hd : k ∈ defaultMetricLabels
      · exact Or.inl hd
      · refine Or.inr ⟨h, ?_⟩
        simpa using hd

/-! ## Claim theorems -/

/-- Claim C2 (code bug): the claim states that `sanitizeLabelName` output
matches `^[a-z0-9_]*$` and that `sanitizeLabelName "fooBar" = "foo_bar"`.
The Go replacement template `${1}_{2}` lacks a `$` before `{2}`, so `{2}` is
literal text: the code maps `fooBar` to `foo_{2}ar`, which contains `{` and
`}` and is not `foo_bar`.  (The invalid-character replacement and
lower-casing parts do hold, e.g. on `a.b-c`.) -/
theorem sanitizeLabelName_camel_bug :
    sanitizeLabelName "fooBar" = "foo_\x7b2\x7dar" ∧
    sanitizeLabelName "fooBar" ≠ "foo_bar" ∧
    '\x7b' ∈ (sanitizeLabelName "fooBar").data ∧
    sanitizeLabelName "a.b-c" = "a_b_c" := by decide

/-- Claim C4 (code bug): the claim states `sanitizeLabelName` is idempotent.
Because of the `${1}_{2}` template slip, `sanitizeLabelName "fooBar"` is
`foo_{2}ar`, whose braces are invalid characters that a second application
replaces with underscores, giving `foo__2_ar ≠ foo_{2}ar`. -/
theorem sanitizeLabelName_not_idempotent :
    sanitizeLabelName (sanitizeLabelName "fooBar") = "foo__2_ar" ∧
    sanitizeLabelName (sanitizeLabelName "fooBar") ≠ sanitizeLabelName "fooBar" := by
  decide

/-- Claim C5: `getMetricLabelName` maps each of the mandatory keys `name`,
`namespace`, `reason` (and no others) to itself, and every other key `k` to
`"label_" ++ sanitizeLabelName k`. -/
theorem getMetricLabelName_mapping (k : String) :
    ((k = "name" ∨ k = "namespace" ∨ k = "reason") → getMetricLabelName k = k) ∧
    (¬(k = "name" ∨ k = "namespace" ∨ k = "reason") →
      getMetricLabelName k = "label_" ++ sanitizeLabelName k) := by
  have hmem : (k ∈ defaultMetricLabels) ↔
      (k = "name" ∨ k = "namespace" ∨ k = "reason") := by
    simp [defaultMetricLabels]
  constructor
  · intro h
    unfold getMetricLabelName
    rw [if_pos]
    have h2 : k ∈ defaultMetricLabels := hmem.mpr h
    simpa using h2
  · intro h
    unfold getMetricLabelName
    rw [if_neg (fun hc => h (hmem.mp (by simpa using hc)))]

/-- Witness for C5 at the concrete keys `reason` and `fooKey`. -/
theorem getMetricLabelName_mapping_witness :
    getMetricLabelName "reason" = "reason" ∧
    getMetricLabelName "fooKey" = "label_" ++ sanitizeLabelName "fooKey" :=
  ⟨(getMetricLabelName_mapping "reason").1 (Or.inr (Or.inr rfl)),
   (getMetricLabelName_mapping "fooKey").2 (by decide)⟩

/-- Claim C6 (counterexample): as universally stated the claim is false.
The extra keys `a.b` and `a_b` both map to the metric label name
`label_a_b`; the later loop iteration overwrites the Go map entry, so for
the key `a.b` (whose own label value is `x`) the built label set carries
`y`, not `object.labels["a.b"]`. -/
theorem getMetricLabels_collision_counterexample :
    "a.b" ∈ ["a.b", "a_b"] ∧
    defaultMetricLabels.contains "a.b" = false ∧
    mapGetD collObj.labels "a.b" = "x" ∧
    goLookup (getMetricLabels ["a.b", "a_b"] collObj "Starting")
      (getMetricLabelName "a.b") = some "y" := by decide

/-- Claim C6 (amended): the built label set always contains
`name = object.name`, `namespace = object.namespace`, `reason = reason`;
and for every extra key that is not mandatory — provided no other
non-mandatory extra key in the list collides with it on the
sanitized/prefixed metric label name — the set contains, under that name,
`object.labels[key]`, or the empty string when the object lacks that label
(`mapGetD` is Go's total map read). -/
theorem getMetricLabels_spec (ml : List String) (obj : EnhancedObjectReference)
    (r : String) :
    goLookup (getMetricLabels ml obj r) "name" = some obj.name ∧
    goLookup (getMetricLabels ml obj r) "namespace" = some obj.namespace_ ∧
    goLookup (getMetricLabels ml obj r) "reason" = some r ∧
    (∀ k ∈ ml, defaultMetricLabels.contains k = false →
      (∀ k' ∈ ml, defaultMetricLabels.contains k' = false →
        getMetricLabelName k' = getMetricLabelName k → k' = k) →
      goLookup (getMetricLabels ml obj r) (getMetricLabelName k) =
        some (mapGetD obj.labels k)) := by
  refine ⟨getMetricLabels_name ml obj r, getMetricLabels_namespace ml obj r,
    getMetricLabels_reason ml obj r, ?_⟩
  intro k hk hc hinj
  rw [getMetricLabels_lookup, lastExtraFor_self ml k hk hc hinj]

/-- Witness for C6 (amended) on the end-to-end scenario object: the
mandatory `name` entry and the missing-collision extra `test_label`. -/
theorem getMetricLabels_spec_witness :
    goLookup (getMetricLabels ["test_label"] testObj "Starting") "name" = some "p1" ∧
    goLookup (getMetricLabels ["test_label"] testObj "Starting")
      (getMetricLabelName "test_label") = some "v1" := by
  have h := getMetricLabels_spec ["test_label"] testObj "Starting"
  refine ⟨h.1, ?_⟩
  exact h.2.2.2 "test_label" (by decide) (by decide)
    (fun k' hk' _ _ => by simpa using hk')

/-- Claim C1: when the event's kind is configured, then for every reason
`r` in that kind's configured reason list, the series addressed by the
label set built for the event's object and `r` is, after processing the
event and whatever the prior GaugeVec state was, present with the event's
count exactly when `r` equals the event's reason, and absent otherwise. -/
theorem processEvent_series_iff (o : PrometheusSink) (ev : EnhancedEvent)
    (σ : GVState) (r : String)
    (hk : o.kinds.contains ev.involvedObject.kind = true)
    (hr : r ∈ reasonsFor o ev.involvedObject.kind) :
    (processEvent o ev σ).get
      (getMetricLabels (metricLabelsFor o ev.involvedObject.kind) ev.involvedObject r)
      = if r = ev.reason then some ev.count else none := by
  unfold processEvent sendOps
  rw [if_pos hk, applyOps_get, lastOpOn_map_opForReason o ev _ r hr]
  show opResult (opForReason o ev r) = _
  unfold opForReason
  by_cases h : ev.reason = r
  · rw [if_pos h, if_pos h.symm]
    rfl
  · rw [if_neg h, if_neg (fun hh => h hh.symm)]
    rfl

/-- Witness for C1: the spec's invariant scenario.  Kind `Pod` configured
with reasons `A` and `B`; after sending reason `A` (count 1) and then
reason `B` (count 5) for the same object, the series for `A` is absent and
the series for `B` is present with the new count. -/
theorem processEvent_series_iff_witness :
    (processEvent sinkW evB (processEvent sinkW evA ∅)).get
      (getMetricLabels (metricLabelsFor sinkW "Pod") objW "A") = none ∧
    (processEvent sinkW evB (processEvent sinkW evA ∅)).get
      (getMetricLabels (metricLabelsFor sinkW "Pod") objW "B") = some 5 := by
  have hA := processEvent_series_iff sinkW evB (processEvent sinkW evA ∅) "A"
    (by decide) (by decide)
  have hB := processEvent_series_iff sinkW evB (processEvent sinkW evA ∅) "B"
    (by decide) (by decide)
  rw [if_neg (by decide)] at hA
  rw [if_pos (by decide)] at hB
  exact ⟨hA, hB⟩

/-- Claim C3: if the event's kind is not configured, `Send` performs zero
GaugeVec operations; otherwise it performs exactly one operation per
configured reason of that kind, namely a `set` of the built label set with
`float(count)` for the reason equal to the event's reason, and a `delete`
of the built label set for every other configured reason. -/
theorem send_routing (o : PrometheusSink) (ev : EnhancedEvent) :
    (o.kinds.contains ev.involvedObject.kind = false → sendOps o ev = []) ∧
    (o.kinds.contains ev.involvedObject.kind = true →
      (sendOps o ev).length = (reasonsFor o ev.involvedObject.kind).length ∧
      ∀ r ∈ reasonsFor o ev.involvedObject.kind,
        (ev.reason = r →
          GVOp.set (getMetricLabels (metricLabelsFor o ev.involvedObject.kind)
            ev.involvedObject r) ev.count ∈ sendOps o ev) ∧
        (ev.reason ≠ r →
          GVOp.del (getMetricLabels (metricLabelsFor o ev.involvedObject.kind)
            ev.involvedObject r) ∈ sendOps o ev)) := by
  constructor
  · intro h
    unfold sendOps
    rw [if_neg (fun hh => Bool.noConfusion (h.symm.trans hh))]
  · intro h
    unfold sendOps
    rw [if_pos h]
    refine ⟨List.length_map _ _, ?_⟩
    intro r hr
    constructor
    · intro he
      have h2 : opForReason o ev r =
          GVOp.set (getMetricLabels (metricLabelsFor o ev.involvedObject.kind)
            ev.involvedObject r) ev.count := by
        unfold opForReason
        rw [if_pos he]
      exact h2 ▸ List.mem_map_of_mem _ hr
    · intro he
      have h2 : opForReason o ev r =
          GVOp.del (getMetricLabels (metricLabelsFor o ev.involvedObject.kind)
            ev.involvedObject r) := by
        unfold opForReason
        rw [if_neg he]
      exact h2 ▸ List.mem_map_of_mem _ hr

/-- Witness for C3: the unconfigured-kind event `evX` produces no
operations; the configured event `evB` produces the matching `set` and the
non-matching `delete`. -/
theorem send_routing_witness :
    sendOps sinkW evX = [] ∧
    GVOp.set (getMetricLabels (metricLabelsFor sinkW "Pod") objW "B") 5
      ∈ sendOps sinkW evB ∧
    GVOp.del (getMetricLabels (metricLabelsFor sinkW "Pod") objW "A")
      ∈ sendOps sinkW evB := by
  refine ⟨(send_routing sinkW evX).1 (by decide), ?_, ?_⟩
  · exact (((send_routing sinkW evB).2 (by decide)).2 "B" (by decide)).1 (by decide)
  · exact (((send_routing sinkW evB).2 (by decide)).2 "A" (by decide)).2 (by decide)

/-- Claim C7: event processing is idempotent — for every event and every
starting GaugeVec state, processing the event twice yields the same final
state as processing it once (`delete` on an absent series is a no-op and
`set` is create-or-update). -/
theorem processEvent_idempotent (o : PrometheusSink) (ev : EnhancedEvent)
    (σ : GVState) :
    processEvent o ev (processEvent o ev σ) = processEvent o ev σ := by
  apply Finmap.ext_lookup
  intro l
  show (processEvent o ev (processEvent o ev σ)).get l = (processEvent o ev σ).get l
  unfold processEvent
  simp only [applyOps_get]
  cases h : lastOpOn (sendOps o ev) l <;> simp [h]

/-- Claim C9: per-event routing never produces an error value — `Send`
always returns `ok` — and unknown kinds as well as empty configured reason
lists are silent no-ops on the GaugeVec state. -/
theorem send_total (o : PrometheusSink) (ev : EnhancedEvent) (σ : GVState) :
    send o ev σ = Except.ok (processEvent o ev σ) ∧
    (o.kinds.contains ev.involvedObject.kind = false → processEvent o ev σ = σ) ∧
    (reasonsFor o ev.involvedObject.kind = [] → processEvent o ev σ = σ) := by
  refine ⟨rfl, ?_, ?_⟩
  · intro h
    unfold processEvent sendOps
    rw [if_neg (fun hh => Bool.noConfusion (h.symm.trans hh))]
    rfl
  · intro h
    unfold processEvent sendOps
    rw [h]
    split
    · rfl
    · rfl

/-- Witness for C9: the unconfigured-kind event `evX` returns `ok` and
leaves the empty state unchanged. -/
theorem send_total_witness :
    send sinkW evX ∅ = Except.ok (processEvent sinkW evX ∅) ∧
    processEvent sinkW evX ∅ = ∅ := by
  have h := send_total sinkW evX ∅
  exact ⟨h.1, h.2.1 (by decide)⟩

/-- Claim C8 (counterexample): as universally stated the claim is false.
The construction only filters extras against the mandatory keys; it does
not deduplicate the extra list itself, so a configuration repeating an
extra key yields that key twice in the effective label-key list. -/
theorem newSink_dup_extras_counterexample :
    goLookup (newPrometheusSink cfgDup).1.metricLabelsByKind "Pod" =
      some ["name", "namespace", "reason", "extra", "extra"] ∧
    ¬ (["name", "namespace", "reason", "extra", "extra"] : List String).Nodup := by
  decide

/-- Claim C8 (amended): for every configuration and every configured kind
whose configured extra-key list has no internal duplicates, the effective
label-key list built at sink construction is, as a set, the three mandatory
keys unioned with that kind's extras, and no key appears twice — in
particular a mandatory key listed among the extras is not duplicated. -/
theorem newSink_effective_labels (cfg : PrometheusConfig) (kind : String)
    (hk : kind ∈ (newPrometheusSink cfg).1.kinds)
    (hnd : ((goLookup cfg.labelFilter kind).getD []).Nodup) :
    ∃ ml, goLookup (newPrometheusSink cfg).1.metricLabelsByKind kind = some ml ∧
      ml.Nodup ∧
      ∀ k, k ∈ ml ↔
        (k ∈ defaultMetricLabels ∨ k ∈ (goLookup cfg.labelFilter kind).getD []) :=
  ⟨_, newSink_metricLabels cfg kind hk, buildKindLabels_nodup _ hnd,
    fun k => buildKindLabels_mem _ k⟩

/-- Witness for C8 (amended): the configuration `cfgW`, whose `Pod` extras
are `test_label` and the mandatory key `name`. -/
theorem newSink_effective_labels_witness :
    ∃ ml, goLookup (newPrometheusSink cfgW).1.metricLabelsByKind "Pod" = some ml ∧
      ml.Nodup ∧
      ∀ k, k ∈ ml ↔
        (k ∈ defaultMetricLabels ∨ k ∈ (goLookup cfgW.labelFilter "Pod").getD []) :=
  newSink_effective_labels cfgW "Pod" (by decide) (by decide)

/-- Claim C10: `NewPrometheusSink` mutates the caller's configuration —
when the metrics-name prefix field is empty it writes the default literal
`event_exporter_` into it (and otherwise leaves it alone), the other
configuration fields are unchanged, and the sink stores exactly that
updated configuration. -/
theorem newSink_config_mutation (cfg : PrometheusConfig) :
    ((newPrometheusSink cfg).2.metricsNamePre =
      if cfg.metricsNamePre = "" then "event_exporter_" else cfg.metricsNamePre) ∧
    (newPrometheusSink cfg).2.reasonFilter = cfg.reasonFilter ∧
    (newPrometheusSink cfg).2.labelFilter = cfg.labelFilter ∧
    (newPrometheusSink cfg).1.cfg = (newPrometheusSink cfg).2 := by
  by_cases h : cfg.metricsNamePre = "" <;> simp [newPrometheusSink, h]
